import Mathlib

/-!
Verification of the process-simulator kernel (simulator/variables.py,
simulator/process.py and the hydro component framework) against its
natural-language specification.  The Python classes are shallowly embedded:
JSON documents are modelled by their parse trees, Python dictionaries by
association lists, Python exceptions by `Except String` results, and the
cooperative scheduler (an external collaborator, simpy) by a fold that runs
registered step functions in registration order once per tick.
-/

namespace Simulator

/-- A JSON document, modelled by its parse tree.  `Field.toJSON` serializes a
field value to such a document and a store read returns one (or `none` on a
miss, modelling a Redis key miss). -/
inductive Json where
  | null
  | bool (b : Bool)
  | num (q : ℚ)
  | str (s : String)
deriving DecidableEq, Repr

/-- The `INPUT_BIT` flag of `FieldType` (variables.py line 23). -/
def INPUT_BIT : Nat := 0x01
/-- The `OUTPUT_BIT` flag of `FieldType` (variables.py line 24). -/
def OUTPUT_BIT : Nat := 0x02
/-- The `DIGITAL_BIT` flag of `FieldType` (variables.py line 25). -/
def DIGITAL_BIT : Nat := 0x04
/-- The `ANALOG_BIT` flag of `FieldType` (variables.py line 26). -/
def ANALOG_BIT : Nat := 0x08

/-- The four concrete members of the `FieldType` enum (variables.py).  A field
whose `ioType` attribute is Python `None` is modelled with `Option.none` at the
field level. -/
inductive FieldType where
  | DIGITAL_INPUT
  | DIGITAL_OUTPUT
  | ANALOG_INPUT
  | ANALOG_OUTPUT
deriving DecidableEq, Repr

/-- The integer value of each `FieldType` member (the or-ed flag bits). -/
def FieldType.val : FieldType → Nat
  | .DIGITAL_INPUT => INPUT_BIT ||| DIGITAL_BIT
  | .DIGITAL_OUTPUT => OUTPUT_BIT ||| DIGITAL_BIT
  | .ANALOG_INPUT => INPUT_BIT ||| ANALOG_BIT
  | .ANALOG_OUTPUT => OUTPUT_BIT ||| ANALOG_BIT

/-- The `Field` class of variables.py: a named, typed, directionally tagged
I/O variable.  `value` is the JSON-encodable Python value. -/
structure Field where
  name : String
  ioType : Option FieldType
  value : Json
  hide : Bool
deriving DecidableEq, Repr

/-- `Field.toJSON`: `json.dumps(self.value)`, modelled at parse-tree level. -/
def Field.toJSON (f : Field) : Json := f.value

/-- `Field.fromJSON`: `self.value = json.loads(value)`.  The argument is the
result of a store read; a miss gives `none` and `json.loads(None)` raises a
`TypeError`. -/
def Field.fromJSON (f : Field) (v : Option Json) : Except String Field :=
  match v with
  | none => Except.error "TypeError"
  | some j => Except.ok { f with value := j }

/-- Boolean form of the pull-phase filter `val.ioType.value & INPUT_BIT`,
defined for fields that do have an `ioType`. -/
def Field.inputB (f : Field) : Bool :=
  match f.ioType with
  | some t => (t.val &&& INPUT_BIT) != 0
  | none => false

/-- Boolean form of the push-phase filter `val.ioType.value & OUTPUT_BIT`,
defined for fields that do have an `ioType`. -/
def Field.outputB (f : Field) : Bool :=
  match f.ioType with
  | some t => (t.val &&& OUTPUT_BIT) != 0
  | none => false

/-- The pull-phase filter expression `val.ioType.value & INPUT_BIT.value`
(process.py line 146).  When `ioType` is Python `None`, the attribute access
`None.value` raises an `AttributeError`. -/
def Field.inputTest (f : Field) : Except String Bool :=
  match f.ioType with
  | none => Except.error "AttributeError"
  | some t => Except.ok ((t.val &&& INPUT_BIT) != 0)

/-- The push-phase filter expression
`val.ioType.value & OUTPUT_BIT.value or force_all` (process.py line 133).
`None.value` raises before `or force_all` is reached, even when
`force_all` is true. -/
def Field.outputTest (forceAll : Bool) (f : Field) : Except String Bool :=
  match f.ioType with
  | none => Except.error "AttributeError"
  | some t => Except.ok (((t.val &&& OUTPUT_BIT) != 0) || forceAll)

/-- The external key-value store (Redis), modelled as an association list from
field name to serialized value. -/
abbrev Store := List (String × Json)

/-- `broker.get(name)`: `none` models a key miss. -/
def Store.get (st : Store) (k : String) : Option Json :=
  (st.find? (fun p => p.1 = k)).map (fun p => p.2)

/-- `broker.set(name, val)`: overwrite the key's value, or append the key. -/
def Store.set (st : Store) (k : String) (v : Json) : Store :=
  match st with
  | [] => [(k, v)]
  | p :: rest => if p.1 = k then (k, v) :: rest else p :: Store.set rest k v

/-- The dict comprehension that filters the registry of fields in
`_retrieve_fields` / `_publish_fields`: the filter expression is evaluated for
every field, in registry order, before any store access happens; an exception
in the filter aborts the whole phase. -/
def selectFields (pred : Field → Except String Bool) :
    List Field → Except String (List Field)
  | [] => Except.ok []
  | f :: rest =>
    match pred f with
    | Except.error e => Except.error e
    | Except.ok b =>
      match selectFields pred rest with
      | Except.error e => Except.error e
      | Except.ok r => Except.ok (if b then f :: r else r)

/-- `getattr(self, name).fromJSON(val)`: write `j` into the registry entry
whose attribute name is `name` (attribute keys are unique in a Python
`__dict__`). -/
def updateField (fields : List Field) (name : String) (j : Json) : List Field :=
  fields.map (fun f => if f.name = name then { f with value := j } else f)

/-- The body of the loop in `_retrieve_fields` (process.py lines 142-149): for
each selected field, in order, fetch its key from the broker and deserialize.
A key miss gives `None` and `fromJSON(None)` raises; the exception propagates
(there is no error handling in the loop). -/
def retrieveLoop (store : Store) : List Field → List Field → Except String (List Field)
  | [], fs => Except.ok fs
  | f :: sel, fs =>
    match Store.get store f.name with
    | none => Except.error "TypeError"
    | some j => retrieveLoop store sel (updateField fs f.name j)

/-- `Process._retrieve_fields`: filter the registry for input-tagged fields,
then fetch and deserialize each one from the broker. -/
def retrieveFields (store : Store) (fields : List Field) : Except String (List Field) :=
  match selectFields Field.inputTest fields with
  | Except.error e => Except.error e
  | Except.ok sel => retrieveLoop store sel fields

/-- The body of the loop in `_publish_fields` (process.py lines 129-136): for
each selected field, in order, serialize its value and write it to the broker. -/
def publishLoop : List Field → Store → Store
  | [], store => store
  | f :: sel, store => publishLoop sel (Store.set store f.name (Field.toJSON f))

/-- `Process._publish_fields`: filter the registry with the output-or-force
filter, then serialize and write each selected field to the broker. -/
def publishFields (forceAll : Bool) (fields : List Field) (store : Store) :
    Except String Store :=
  match selectFields (Field.outputTest forceAll) fields with
  | Except.error e => Except.error e
  | Except.ok sel => Except.ok (publishLoop sel store)

/-- Observable events of one tick of `Process.process`: a pull of one field
during `_retrieve_fields`, the single `yield self._env.timeout(1)` suspension,
and a push of one field during `_publish_fields`. -/
inductive TickEvent where
  | pull (name : String)
  | yield
  | push (name : String)
deriving DecidableEq, Repr

/-- One iteration of the `while True` loop in `Process.process` (process.py
lines 155-163): retrieve the input fields, suspend for one logical tick, then
publish the output fields.  Returns the updated registry, the updated store
and the trace of observable events; any exception propagates out of the tick. -/
def processTick (fields : List Field) (store : Store) :
    Except String (List Field × Store × List TickEvent) :=
  match selectFields Field.inputTest fields with
  | Except.error e => Except.error e
  | Except.ok selIn =>
    match retrieveLoop store selIn fields with
    | Except.error e => Except.error e
    | Except.ok fields' =>
      match selectFields (Field.outputTest false) fields' with
      | Except.error e => Except.error e
      | Except.ok selOut =>
        Except.ok (fields', publishLoop selOut store,
          selIn.map (fun f => TickEvent.pull f.name) ++ [TickEvent.yield]
            ++ selOut.map (fun f => TickEvent.push f.name))

/-- One plain (non-composite) variable record of the TOML configuration, as
consumed by `_init_all_fields`: `ioType` is resolved from the optional
`ioType` key, `value` from the optional `value` key. -/
structure VarConf where
  name : String
  ioType : Option FieldType
  value : Json
  hide : Bool
deriving DecidableEq, Repr

/-- `Process._init_all_fields` restricted to configurations of plain variable
records (no `compositeType` key): build one `Field` per record, attach it to
the registry, then run the initial forced push `_publish_fields(force_all=True)`. -/
def initAllFields (confs : List VarConf) (store : Store) :
    Except String (List Field × Store) :=
  match publishFields true
      (confs.map (fun c => Field.mk c.name c.ioType c.value c.hide)) store with
  | Except.error e => Except.error e
  | Except.ok store' =>
    Except.ok (confs.map (fun c => Field.mk c.name c.ioType c.value c.hide), store')

/-- Whether an `Except` result is an exception. -/
def isError {α : Type} : Except String α → Bool
  | Except.error _ => true
  | Except.ok _ => false

/-- The store contents after `_init_all_fields`, or `none` if startup raised. -/
def storeGetAfterInit (confs : List VarConf) (store : Store) (k : String) : Option Json :=
  match initAllFields confs store with
  | Except.ok (_, st) => Store.get st k
  | Except.error _ => none

/-- The tick trace of one successful iteration of `Process.process`. -/
def tickTrace (fields : List Field) (store : Store) : Option (List TickEvent) :=
  match processTick fields store with
  | Except.ok (_, _, tr) => some tr
  | Except.error _ => none

/-- The field registry after one successful iteration of `Process.process`. -/
def tickFields (fields : List Field) (store : Store) : Option (List Field) :=
  match processTick fields store with
  | Except.ok (fs, _, _) => some fs
  | Except.error _ => none

/-- A store lookup after one successful iteration of `Process.process`. -/
def tickStoreGet (fields : List Field) (store : Store) (k : String) : Option Json :=
  match processTick fields store with
  | Except.ok (_, st, _) => Store.get st k
  | Except.error _ => none

/-- A Python object handed to `FieldCollection.__init__`: either an actual
`Field` instance, or some other object (which may or may not expose a `name`
attribute, since the raising statement is `raise ValueError(field.name)`). -/
inductive PyObj where
  | field (f : Field)
  | other (name : Option String)
deriving DecidableEq, Repr

/-- Whether a `PyObj` is an actual `Field` instance. -/
def PyObj.isField : PyObj → Bool
  | .field _ => true
  | .other _ => false

/-- The validation loop of `FieldCollection.__init__` (variables.py lines
81-83): walk the supplied list in order; the first element that is not a
`Field` raises (`ValueError(field.name)` when the object has a `name`
attribute, otherwise the access `field.name` itself raises `AttributeError`). -/
def collectMembers : List PyObj → Except String (List Field)
  | [] => Except.ok []
  | PyObj.field f :: rest =>
    match collectMembers rest with
    | Except.ok fs => Except.ok (f :: fs)
    | Except.error e => Except.error e
  | PyObj.other n :: _ =>
    Except.error (match n with | some _ => "ValueError" | none => "AttributeError")

/-- The `FieldCollection` class: an ordered group of member `Field` objects,
stored in `_fields` and exposed through the `fields` property. -/
structure FieldCollection where
  fields : List Field
deriving DecidableEq, Repr

/-- `FieldCollection.__init__`: validate every member, then store the list. -/
def FieldCollection.construct (objs : List PyObj) : Except String FieldCollection :=
  match collectMembers objs with
  | Except.ok fs => Except.ok ⟨fs⟩
  | Except.error e => Except.error e

/-- The public `fields` property setter (variables.py lines 91-94): replace
`_fields` with the supplied list.  It performs no validation in the source. -/
def FieldCollection.setFields (_c : FieldCollection) (fs : List Field) : FieldCollection :=
  ⟨fs⟩

/-- The `BreakerStateType` enum (variables.py lines 184-189). -/
inductive BreakerStateType where
  | CLOSED
  | OPEN
  | TRANSITION
  | BROKEN
deriving DecidableEq, Repr

/-- The `(bool, bool)` pair that is the enum member's value. -/
def BreakerStateType.pair : BreakerStateType → Bool × Bool
  | .CLOSED => (false, true)
  | .OPEN => (true, false)
  | .TRANSITION => (false, false)
  | .BROKEN => (true, true)

/-- The enum lookup `BreakerStateType((v0, v1))`; every boolean pair is the
value of exactly one member. -/
def BreakerStateType.ofPair : Bool × Bool → BreakerStateType
  | (false, true) => .CLOSED
  | (true, false) => .OPEN
  | (false, false) => .TRANSITION
  | (true, true) => .BROKEN

/-- The `BreakerStateField` class, a `FieldCollection` of the two indicator
fields.  The composite value lives entirely in the member fields. -/
structure BreakerStateField where
  fields : List Field
deriving DecidableEq, Repr

/-- The `value` property getter (variables.py lines 218-221):
`BreakerStateType((self.fields[0].value, self.fields[1].value))`.  The index
accesses raise `IndexError` when fewer than two members exist, and the enum
lookup raises `ValueError` when a member value is not a boolean. -/
def BreakerStateField.getValue (b : BreakerStateField) : Except String BreakerStateType :=
  match b.fields with
  | f0 :: f1 :: _ =>
    match f0.value, f1.value with
    | Json.bool b0, Json.bool b1 => Except.ok (BreakerStateType.ofPair (b0, b1))
    | _, _ => Except.error "ValueError"
  | _ => Except.error "IndexError"

/-- The `value` property setter (variables.py lines 223-229):
`state0, state1 = self.fields` (raises `ValueError` unless the collection has
exactly two members), then write the decomposed boolean pair into the two
member fields. -/
def BreakerStateField.setValue (b : BreakerStateField) (value : BreakerStateType) :
    Except String BreakerStateField :=
  match b.fields with
  | [s0, s1] =>
    Except.ok ⟨[{ s0 with value := Json.bool value.pair.1 },
                { s1 with value := Json.bool value.pair.2 }]⟩
  | _ => Except.error "ValueError"

/-- `BreakerStateField.__init__`: check the value is a `BreakerStateType`
(guaranteed here by typing), validate the member list as a `FieldCollection`,
then run the `value` setter on the initial value.  The `hide` argument is
accepted but never stored by the source. -/
def BreakerStateField.construct (objs : List PyObj) (value : BreakerStateType)
    (_hide : Bool) : Except String BreakerStateField :=
  match collectMembers objs with
  | Except.error e => Except.error e
  | Except.ok fs => BreakerStateField.setValue ⟨fs⟩ value

/-- The `DisconnectorStateType` enum (variables.py lines 192-196). -/
inductive DisconnectorStateType where
  | OPEN
  | CLOSED
  | BROKEN
deriving DecidableEq, Repr

/-- The `DisconnectorStateField` class.  `value` is `none` while the `value`
attribute has not been assigned yet (as inside `__init__` before
`Field.__init__` reaches `self.value = value`); `observer` is the optional
bound transition-authorization callback. -/
structure DisconnectorStateField where
  name : String
  ioType : Option FieldType
  value : Option DisconnectorStateType
  hide : Bool
  observer : Option (DisconnectorStateType → Bool)

/-- The outcome of one assignment `self.value = v` on a
`DisconnectorStateField`: the object state after the call and whether an
exception propagated to the caller. -/
structure SetAttrResult where
  field : DisconnectorStateField
  raised : Bool

/-- `DisconnectorStateField.__setattr__` for the `value` attribute
(variables.py lines 252-267).  It first reads the current value with
`self.__getattribute__("value")`, which raises `AttributeError` when the
attribute does not exist yet.  A `Closed -> Open` request is routed through
the observer and silently dropped on veto; any write while the current value
is `Broken` raises `ValueError`; every other write falls through to
`super().__setattr__`. -/
def DisconnectorStateField.setValue (f : DisconnectorStateField)
    (v : DisconnectorStateType) : SetAttrResult :=
  match f.value with
  | none => ⟨f, true⟩
  | some cur =>
    if cur = DisconnectorStateType.CLOSED ∧ v = DisconnectorStateType.OPEN then
      match f.observer with
      | some obs =>
        if obs v then ⟨{ f with value := some v }, false⟩ else ⟨f, false⟩
      | none => ⟨{ f with value := some v }, false⟩
    else if cur = DisconnectorStateType.BROKEN then ⟨f, true⟩
    else ⟨{ f with value := some v }, false⟩

/-- `DisconnectorStateField.__init__` (variables.py lines 234-250): the
`isinstance` check passes (typing), `self._observer = None` and the `name` and
`ioType` assignments go through `__setattr__` unharmed, and then
`Field.__init__` executes `self.value = value`, which reaches the overriding
`__setattr__` while no `value` attribute exists yet. -/
def DisconnectorStateField.construct (name : String) (ioType : Option FieldType)
    (value : DisconnectorStateType) (hide : Bool) :
    Except String DisconnectorStateField :=
  let obj0 : DisconnectorStateField :=
    { name := name, ioType := ioType, value := none, hide := false, observer := none }
  let r := obj0.setValue value
  if r.raised then Except.error "AttributeError"
  else Except.ok { r.field with hide := hide }

/-- The fluid composition map of a `FluidField`, as an association list from
fluid name to quantity (Python dicts preserve insertion order and have unique
keys). -/
abbrev FluidComp := List (String × ℚ)

/-- The `FluidField` class: a `Field` carrying a normalized composition map
and a temperature. -/
structure FluidField where
  name : String
  ioType : Option FieldType
  value : Json
  hide : Bool
  fluidDict : Option FluidComp
  temperature : ℚ
deriving DecidableEq, Repr

/-- `FluidField._normalize` (variables.py lines 132-150): sum the quantities;
if the total is positive, keep the entries with non-zero quantity, each
divided by the total; otherwise return the empty composition. -/
def FluidField.normalize (fluid_dict : FluidComp) : FluidComp :=
  let total := (fluid_dict.map Prod.snd).sum
  if 0 < total then
    (fluid_dict.filter (fun p => p.2 ≠ 0)).map (fun p => (p.1, p.2 / total))
  else []

/-- The `fluidDict` property setter (variables.py lines 157-160):
`self._fluidDict = self._normalize(fluid_dict) if fluid_dict else None`.
Python `None` and the empty dict are falsy and store `None`. -/
def FluidField.setFluidDict (f : FluidField) (d : Option FluidComp) : FluidField :=
  { f with fluidDict :=
      match d with
      | none => none
      | some l => if l = [] then none else some (FluidField.normalize l) }

/-- The state shared by a schematic writer/reader component pair: the shared
field `f`, the reader's observation `obs` of `f`, and the writer's private
tick counter `t`. -/
structure SimState where
  f : ℚ
  obs : ℚ
  t : ℕ
deriving DecidableEq, Repr

/-- Modelled from the spec: the update step of a component X that writes the
shared field F each tick (the scheduler itself, simpy, is an external
collaborator that is not part of this repository).  On its k-th run it writes
the fresh value `w k` into the field, like `Cooling.process` recomputing its
owned fields once per tick. -/
def writerStep (w : ℕ → ℚ) (s : SimState) : SimState :=
  { f := w s.t, obs := s.obs, t := s.t + 1 }

/-- Modelled from the spec: the update step of a component Y that reads the
shared field F each tick and records the value it observed. -/
def readerStep (s : SimState) : SimState :=
  { f := s.f, obs := s.f, t := s.t }

/-- Modelled from the spec: one logical tick of the cooperative scheduler.
Every registered component process is resumed once, in registration order,
with no preemption; each runs its update step on the shared state
(`Component.__init__` registers the repeating process, `Component.process`
wraps the update step in {update; suspend one period} forever). -/
def runTick (comps : List (SimState → SimState)) (s : SimState) : SimState :=
  comps.foldl (fun st c => c st) s

/-- Modelled from the spec: `n` logical ticks of the cooperative scheduler. -/
def runTicks (comps : List (SimState → SimState)) (s : SimState) : ℕ → SimState
  | 0 => s
  | n + 1 => runTick comps (runTicks comps s n)

/-! ## Helper lemmas -/

lemma collectMembers_err (objs : List PyObj) (hex : ∃ o ∈ objs, o.isField = false) :
    ∃ e, collectMembers objs = Except.error e := by
  obtain ⟨o, ho, hof⟩ := hex
  induction objs with
  | nil => cases ho
  | cons a rest ih =>
    cases a with
    | other n => exact ⟨_, rfl⟩
    | field f =>
      have hrest : o ∈ rest := by
        rcases List.mem_cons.mp ho with h | h
        · rw [h] at hof; simp [PyObj.isField] at hof
        · exact h
      obtain ⟨e, he⟩ := ih hrest
      exact ⟨e, by simp [collectMembers, he]⟩

lemma collectMembers_map_field (fs : List Field) :
    collectMembers (fs.map PyObj.field) = Except.ok fs := by
  induction fs with
  | nil => rfl
  | cons f rest ih => simp [collectMembers, ih]

lemma sum_filter_ne_zero (l : FluidComp) :
    ((l.filter (fun p => p.2 ≠ 0)).map Prod.snd).sum = (l.map Prod.snd).sum := by
  induction l with
  | nil => rfl
  | cons p rest ih =>
    by_cases hp : p.2 = 0
    · rw [List.filter_cons, if_neg (by simp [hp])]
      simp only [List.map_cons, List.sum_cons, ih, hp, zero_add]
    · rw [List.filter_cons, if_pos (by simp [hp])]
      simp only [List.map_cons, List.sum_cons, ih]

lemma sum_map_div (l : FluidComp) (t : ℚ) :
    ((l.map (fun p => (p.1, p.2 / t))).map Prod.snd).sum = (l.map Prod.snd).sum / t := by
  induction l with
  | nil => simp
  | cons p rest ih =>
    simp only [List.map_cons, List.sum_cons]
    rw [ih, add_div]

lemma inputTest_eq (f : Field) (h : f.ioType.isSome) :
    Field.inputTest f = Except.ok (Field.inputB f) := by
  cases hio : f.ioType with
  | none => rw [hio] at h; cases h
  | some t => simp [Field.inputTest, Field.inputB, hio]

lemma outputTest_false_eq (f : Field) (h : f.ioType.isSome) :
    Field.outputTest false f = Except.ok (Field.outputB f) := by
  cases hio : f.ioType with
  | none => rw [hio] at h; cases h
  | some t => simp [Field.outputTest, Field.outputB, hio]

lemma outputTest_true_eq (f : Field) (h : f.ioType.isSome) :
    Field.outputTest true f = Except.ok true := by
  cases hio : f.ioType with
  | none => rw [hio] at h; cases h
  | some t => simp [Field.outputTest, hio]

lemma selectFields_ok (pb : Field → Bool) (pred : Field → Except String Bool)
    (fields : List Field) (h : ∀ f ∈ fields, pred f = Except.ok (pb f)) :
    selectFields pred fields = Except.ok (fields.filter pb) := by
  induction fields with
  | nil => rfl
  | cons f rest ih =>
    simp only [selectFields]
    rw [h f (List.mem_cons_self f rest),
      ih (fun g hg => h g (List.mem_cons_of_mem f hg))]
    cases hb : pb f <;> simp [List.filter_cons, hb]

lemma retrieveLoop_err (store : Store) (sel : List Field)
    (hex : ∃ f ∈ sel, Store.get store f.name = none) (fs : List Field) :
    ∃ e, retrieveLoop store sel fs = Except.error e := by
  obtain ⟨f, hf, hnone⟩ := hex
  induction sel generalizing fs with
  | nil => cases hf
  | cons g sel ih =>
    cases hg : Store.get store g.name with
    | none => exact ⟨"TypeError", by simp [retrieveLoop, hg]⟩
    | some j =>
      have hf' : f ∈ sel := by
        rcases List.mem_cons.mp hf with h | h
        · rw [← h, hnone] at hg; cases hg
        · exact h
      obtain ⟨e, he⟩ := ih (updateField fs g.name j) hf'
      exact ⟨e, by simp [retrieveLoop, hg, he]⟩

lemma retrieveLoop_ok (store : Store) (sel : List Field)
    (hall : ∀ f ∈ sel, (Store.get store f.name).isSome) (fs : List Field) :
    retrieveLoop store sel fs
      = Except.ok (sel.foldl (fun a f =>
          updateField a f.name ((Store.get store f.name).getD Json.null)) fs) := by
  induction sel generalizing fs with
  | nil => rfl
  | cons g sel ih =>
    cases hg : Store.get store g.name with
    | none =>
      have := hall g (List.mem_cons_self g sel)
      rw [hg] at this; cases this
    | some j =>
      simp only [retrieveLoop, hg, List.foldl_cons, Option.getD_some]
      exact ih (fun f hf => hall f (List.mem_cons_of_mem g hf)) (updateField fs g.name j)

lemma foldl_updateField_map (jv : Field → Json) (sel : List Field) (fs : List Field) :
    sel.foldl (fun a f => updateField a f.name (jv f)) fs
      = fs.map (fun x => sel.foldl (fun y f =>
          if y.name = f.name then { y with value := jv f } else y) x) := by
  induction sel generalizing fs with
  | nil => simp
  | cons g sel ih =>
    simp only [List.foldl_cons]
    rw [ih]
    unfold updateField
    rw [List.map_map]
    rfl

lemma innerFold_noop (jv : Field → Json) (sel : List Field) (x : Field)
    (h : ∀ f ∈ sel, ¬ x.name = f.name) :
    sel.foldl (fun y f =>
      if y.name = f.name then { y with value := jv f } else y) x = x := by
  induction sel with
  | nil => rfl
  | cons g sel ih =>
    simp only [List.foldl_cons, if_neg (h g (List.mem_cons_self g sel))]
    exact ih (fun f hf => h f (List.mem_cons_of_mem g hf))

lemma innerFold_const (jv : Field → Json) (sel : List Field) (y : Field)
    (h : ∀ f ∈ sel, y.name = f.name → jv f = y.value) :
    sel.foldl (fun z f =>
      if z.name = f.name then { z with value := jv f } else z) y = y := by
  induction sel generalizing y with
  | nil => rfl
  | cons g sel ih =>
    by_cases hg : y.name = g.name
    · have hv : jv g = y.value := h g (List.mem_cons_self g sel) hg
      simp only [List.foldl_cons, if_pos hg, hv]
      exact ih y (fun f hf => h f (List.mem_cons_of_mem g hf))
    · simp only [List.foldl_cons, if_neg hg]
      exact ih y (fun f hf => h f (List.mem_cons_of_mem g hf))

lemma innerFold_set (jv : Field → Json) (sel : List Field) (x : Field) (v : Json)
    (hall : ∀ f ∈ sel, x.name = f.name → jv f = v)
    (hex : ∃ f ∈ sel, x.name = f.name) :
    sel.foldl (fun y f =>
      if y.name = f.name then { y with value := jv f } else y) x
      = { x with value := v } := by
  induction sel with
  | nil => obtain ⟨f, hf, _⟩ := hex; cases hf
  | cons g sel ih =>
    by_cases hg : x.name = g.name
    · have hv : jv g = v := hall g (List.mem_cons_self g sel) hg
      simp only [List.foldl_cons, if_pos hg, hv]
      exact innerFold_const jv sel { x with value := v }
        (fun f hf hname => hall f (List.mem_cons_of_mem g hf) hname)
    · simp only [List.foldl_cons, if_neg hg]
      refine ih (fun f hf hname => hall f (List.mem_cons_of_mem g hf) hname) ?_
      obtain ⟨f, hf, hname⟩ := hex
      rcases List.mem_cons.mp hf with h | h
      · rw [h] at hname; exact absurd hname hg
      · exact ⟨f, h, hname⟩

lemma retrieve_foldl_eq_map (store : Store) (fields : List Field)
    (hnodup : (fields.map Field.name).Nodup) :
    (fields.filter Field.inputB).foldl
        (fun a f => updateField a f.name ((Store.get store f.name).getD Json.null)) fields
      = fields.map (fun x => if Field.inputB x then
          { x with value := (Store.get store x.name).getD Json.null } else x) := by
  rw [foldl_updateField_map (fun f => (Store.get store f.name).getD Json.null)]
  apply List.map_congr_left
  intro x hx
  by_cases hbx : Field.inputB x
  · rw [if_pos hbx]
    apply innerFold_set
    · intro f hf hname
      have hfd : f ∈ fields := (List.mem_filter.mp hf).1
      have : x = f := List.inj_on_of_nodup_map hnodup hx hfd hname
      rw [this]
    · exact ⟨x, List.mem_filter.mpr ⟨hx, hbx⟩, rfl⟩
  · rw [if_neg hbx]
    apply innerFold_noop
    intro f hf hname
    have hfd : f ∈ fields := (List.mem_filter.mp hf).1
    have hx' : x = f := List.inj_on_of_nodup_map hnodup hx hfd hname
    rw [← hx'] at hf
    exact hbx (List.mem_filter.mp hf).2

lemma filter_map_comm (g : Field → Field) (p : Field → Bool)
    (h : ∀ x, p (g x) = p x) (l : List Field) :
    (l.map g).filter p = (l.filter p).map g := by
  induction l with
  | nil => rfl
  | cons x l ih =>
    simp only [List.map_cons, List.filter_cons, h x]
    cases hp : p x <;> simp [ih]

lemma store_get_cons_eq (p : String × Json) (st : Store) (k : String)
    (h : p.1 = k) : Store.get (p :: st) k = some p.2 := by
  simp [Store.get, List.find?, h]

lemma store_get_cons_ne (p : String × Json) (st : Store) (k : String)
    (h : ¬ p.1 = k) : Store.get (p :: st) k = Store.get st k := by
  simp [Store.get, List.find?, h]

lemma store_get_set (st : Store) (k : String) (v : Json) (k' : String) :
    Store.get (Store.set st k v) k' = if k' = k then some v else Store.get st k' := by
  induction st with
  | nil =>
    by_cases h : k' = k
    · subst h
      rw [if_pos rfl]
      exact store_get_cons_eq (k', v) [] k' rfl
    · rw [if_neg h]
      have h2 : ¬ k = k' := fun he => h he.symm
      rw [show Store.set [] k v = [(k, v)] from rfl, store_get_cons_ne (k, v) [] k' h2]
  | cons p st ih =>
    by_cases hp : p.1 = k
    · rw [show Store.set (p :: st) k v = (k, v) :: st from by simp [Store.set, hp]]
      by_cases h : k' = k
      · rw [if_pos h]
        exact store_get_cons_eq (k, v) st k' (h.symm)
      · have h2 : ¬ k = k' := fun he => h he.symm
        have h3 : ¬ p.1 = k' := by rw [hp]; exact h2
        rw [if_neg h, store_get_cons_ne (k, v) st k' h2, store_get_cons_ne p st k' h3]
    · rw [show Store.set (p :: st) k v = p :: Store.set st k v from by simp [Store.set, hp]]
      by_cases h3 : p.1 = k'
      · have h4 : ¬ k' = k := fun he => hp (by rw [h3, he])
        rw [if_neg h4, store_get_cons_eq p (Store.set st k v) k' h3,
          store_get_cons_eq p st k' h3]
      · rw [store_get_cons_ne p (Store.set st k v) k' h3, ih,
          store_get_cons_ne p st k' h3]

lemma publishLoop_get_notmem (sel : List Field) (k : String)
    (h : k ∉ sel.map Field.name) :
    ∀ store : Store, Store.get (publishLoop sel store) k = Store.get store k := by
  induction sel with
  | nil => intro store; rfl
  | cons g sel ih =>
    intro store
    have hk : k ≠ g.name := by
      intro he
      exact h (by rw [he]; exact List.mem_cons_self _ _)
    have h' : k ∉ sel.map Field.name := fun hm => h (List.mem_cons_of_mem _ hm)
    simp only [publishLoop]
    rw [ih h' (Store.set store g.name (Field.toJSON g)), store_get_set, if_neg hk]

lemma publishLoop_get_mem :
    ∀ sel : List Field, (sel.map Field.name).Nodup →
      ∀ f ∈ sel, ∀ store : Store,
        Store.get (publishLoop sel store) f.name = some f.value := by
  intro sel
  induction sel with
  | nil => intro _ f hf; cases hf
  | cons g sel ih =>
    intro hnodup f hf store
    have hnd := List.nodup_cons.mp hnodup
    rcases List.mem_cons.mp hf with h | h
    · subst h
      simp only [publishLoop]
      rw [publishLoop_get_notmem sel f.name hnd.1 _, store_get_set, if_pos rfl]
      rfl
    · simp only [publishLoop]
      exact ih hnd.2 f h (Store.set store g.name (Field.toJSON g))

lemma processTick_eq (fields : List Field) (store : Store)
    (selIn fields' selOut : List Field)
    (h1 : selectFields Field.inputTest fields = Except.ok selIn)
    (h2 : retrieveLoop store selIn fields = Except.ok fields')
    (h3 : selectFields (Field.outputTest false) fields' = Except.ok selOut) :
    processTick fields store = Except.ok (fields', publishLoop selOut store,
      selIn.map (fun f => TickEvent.pull f.name) ++ [TickEvent.yield]
        ++ selOut.map (fun f => TickEvent.push f.name)) := by
  unfold processTick
  rw [h1]
  dsimp only
  rw [h2]
  dsimp only
  rw [h3]

lemma processTick_err_retrieve (fields : List Field) (store : Store)
    (selIn : List Field) (e : String)
    (h1 : selectFields Field.inputTest fields = Except.ok selIn)
    (h2 : retrieveLoop store selIn fields = Except.error e) :
    processTick fields store = Except.error e := by
  unfold processTick
  rw [h1]
  dsimp only
  rw [h2]

lemma pull_map_eq (store : Store) :
    ∀ x : Field,
      ((if Field.inputB x then
          { x with value := (Store.get store x.name).getD Json.null } else x) : Field).ioType
        = x.ioType
      ∧ ((if Field.inputB x then
          { x with value := (Store.get store x.name).getD Json.null } else x) : Field).name
        = x.name := by
  intro x
  by_cases h : Field.inputB x <;> simp [h]

lemma processTick_ok (fields : List Field) (store : Store)
    (hdir : ∀ f ∈ fields, f.ioType.isSome)
    (hnodup : (fields.map Field.name).Nodup)
    (hin : ∀ f ∈ fields, Field.inputB f = true → (Store.get store f.name).isSome) :
    processTick fields store = Except.ok
      (fields.map (fun x => if Field.inputB x then
          { x with value := (Store.get store x.name).getD Json.null } else x),
       publishLoop ((fields.filter Field.outputB).map (fun x => if Field.inputB x then
          { x with value := (Store.get store x.name).getD Json.null } else x)) store,
       (fields.filter Field.inputB).map (fun f => TickEvent.pull f.name)
         ++ [TickEvent.yield]
         ++ (fields.filter Field.outputB).map (fun f => TickEvent.push f.name)) := by
  set g : Field → Field := fun x => if Field.inputB x then
      { x with value := (Store.get store x.name).getD Json.null } else x with hg
  have hg_io : ∀ x : Field, (g x).ioType = x.ioType := fun x => (pull_map_eq store x).1
  have hg_name : ∀ x : Field, (g x).name = x.name := fun x => (pull_map_eq store x).2
  have hsel : selectFields Field.inputTest fields
      = Except.ok (fields.filter Field.inputB) :=
    selectFields_ok Field.inputB Field.inputTest fields
      (fun f hf => inputTest_eq f (hdir f hf))
  have hall : ∀ f ∈ fields.filter Field.inputB, (Store.get store f.name).isSome := by
    intro f hf
    have h' := List.mem_filter.mp hf
    exact hin f h'.1 h'.2
  have hloop : retrieveLoop store (fields.filter Field.inputB) fields
      = Except.ok (fields.map g) := by
    rw [retrieveLoop_ok store _ hall fields, retrieve_foldl_eq_map store fields hnodup]
  have hdir' : ∀ f ∈ fields.map g, f.ioType.isSome := by
    intro f hf
    obtain ⟨x, hx, rfl⟩ := List.mem_map.mp hf
    rw [hg_io x]
    exact hdir x hx
  have hselOut : selectFields (Field.outputTest false) (fields.map g)
      = Except.ok ((fields.filter Field.outputB).map g) := by
    rw [selectFields_ok Field.outputB (Field.outputTest false) (fields.map g)
      (fun f hf => outputTest_false_eq f (hdir' f hf))]
    rw [filter_map_comm g Field.outputB (fun x => by
      simp [Field.outputB, hg_io x]) fields]
  rw [processTick_eq fields store _ _ _ hsel hloop hselOut]
  have hpush : ((fields.filter Field.outputB).map g).map (fun f => TickEvent.push f.name)
      = (fields.filter Field.outputB).map (fun f => TickEvent.push f.name) := by
    rw [List.map_map]
    apply List.map_congr_left
    intro x _
    simp [Function.comp, hg_name x]
  rw [hpush]

lemma writer_reader_state (w : ℕ → ℚ) (f0 o0 : ℚ) (n : ℕ) :
    runTicks [writerStep w, readerStep] ⟨f0, o0, 0⟩ (n + 1)
      = ⟨w n, w n, n + 1⟩ := by
  induction n with
  | zero => simp [runTicks, runTick, writerStep, readerStep]
  | succ n ih =>
    have hstep : runTicks [writerStep w, readerStep] ⟨f0, o0, 0⟩ (n + 2)
        = runTick [writerStep w, readerStep]
            (runTicks [writerStep w, readerStep] ⟨f0, o0, 0⟩ (n + 1)) := rfl
    rw [hstep, ih]
    simp [runTick, writerStep, readerStep]

lemma reader_writer_state (w : ℕ → ℚ) (f0 o0 : ℚ) (n : ℕ) :
    runTicks [readerStep, writerStep w] ⟨f0, o0, 0⟩ (n + 1)
      = ⟨w n, (match n with | 0 => f0 | k + 1 => w k), n + 1⟩ := by
  induction n with
  | zero => simp [runTicks, runTick, writerStep, readerStep]
  | succ n ih =>
    have hstep : runTicks [readerStep, writerStep w] ⟨f0, o0, 0⟩ (n + 2)
        = runTick [readerStep, writerStep w]
            (runTicks [readerStep, writerStep w] ⟨f0, o0, 0⟩ (n + 1)) := rfl
    rw [hstep, ih]
    simp [runTick, writerStep, readerStep]

/-! ## Claim theorems -/

/-- Claim C1: under the cooperative scheduler (spec-modelled: registered
processes run once per tick, in registration order, with no preemption), a
reader component registered after the writer observes the value the writer
wrote in the same tick; a reader registered before the writer observes the
value written in the previous tick (and the initial field value on the very
first tick).  The observed value is a closed form of the registration order
and the inputs alone, so it is deterministic. -/
theorem C1_tick_ordering (w : ℕ → ℚ) (f0 o0 : ℚ) (n : ℕ) :
    (runTicks [writerStep w, readerStep] ⟨f0, o0, 0⟩ (n + 1)).obs = w n
    ∧ (runTicks [readerStep, writerStep w] ⟨f0, o0, 0⟩ (n + 2)).obs = w n
    ∧ (runTicks [readerStep, writerStep w] ⟨f0, o0, 0⟩ 1).obs = f0 := by
  refine ⟨?_, ?_, ?_⟩
  · rw [writer_reader_state]
  · rw [reader_writer_state w f0 o0 (n + 1)]
  · rw [reader_writer_state w f0 o0 0]

/-- Witness for C1 at a concrete writer sequence: with writer-before-reader,
after three ticks the reader has observed the tick-3 write. -/
theorem C1_witness :
    (runTicks [writerStep (fun k => (k : ℚ)), readerStep] ⟨0, 0, 0⟩ 3).obs
      = ((2 : ℕ) : ℚ) :=
  (C1_tick_ordering (fun k => (k : ℚ)) 0 0 2).1

/-- Claim C2 (corrected): synchronization errors are NOT recovered locally.
If any Input-direction field's key is missing from the store, the pull phase
raises (`json.loads(None)` is a `TypeError`) and the exception propagates out
of the per-tick cycle: `_retrieve_fields`, `_publish_fields` and
`Process.process` contain no error handling. -/
theorem C2_sync_errors_propagate (fields : List Field) (store : Store)
    (hdir : ∀ f ∈ fields, f.ioType.isSome)
    (hmiss : ∃ f ∈ fields, Field.inputB f = true ∧ Store.get store f.name = none) :
    isError (processTick fields store) = true := by
  have hsel : selectFields Field.inputTest fields
      = Except.ok (fields.filter Field.inputB) :=
    selectFields_ok Field.inputB Field.inputTest fields
      (fun f hf => inputTest_eq f (hdir f hf))
  obtain ⟨f, hf, hb, hnone⟩ := hmiss
  obtain ⟨e, he⟩ := retrieveLoop_err store (fields.filter Field.inputB)
    ⟨f, List.mem_filter.mpr ⟨hf, hb⟩, hnone⟩ fields
  rw [processTick_err_retrieve fields store _ e hsel he]
  rfl

/-- Witness for C2: a tick over one input field whose key is absent from the
store errors out. -/
theorem C2_witness :
    isError (processTick
      [⟨"HYDRO_CMD_PO_EAU", some FieldType.DIGITAL_INPUT, Json.bool false, false⟩]
      []) = true :=
  C2_sync_errors_propagate _ _ (by decide) (by decide)

/-- Counterexample to C2 as stated: a store read miss for an input field is
not recovered — the tick evaluates to a propagating `TypeError` instead of
leaving the field unchanged and proceeding. -/
theorem C2_counterexample :
    processTick
      [⟨"HYDRO_CMD_PO_EAU", some FieldType.DIGITAL_INPUT, Json.bool false, false⟩]
      [] = Except.error "TypeError" := rfl

/-- Claim C3 (corrected): for a registry in which every field has a direction
(and distinct names) and every input key is present in the store, one
steady-state tick pulls exactly the Input-direction fields, then suspends for
one logical tick, then pushes exactly the Output-direction fields, in that
order; non-input fields keep their values and non-output keys of the store
are untouched.  (A field with no direction does not remain untouched — it
aborts the tick, see the counterexample.) -/
theorem C3_tick_phases (fields : List Field) (store : Store)
    (hdir : ∀ f ∈ fields, f.ioType.isSome)
    (hnodup : (fields.map Field.name).Nodup)
    (hin : ∀ f ∈ fields, Field.inputB f = true → (Store.get store f.name).isSome) :
    tickTrace fields store = some
        ((fields.filter Field.inputB).map (fun f => TickEvent.pull f.name)
          ++ [TickEvent.yield]
          ++ (fields.filter Field.outputB).map (fun f => TickEvent.push f.name))
    ∧ tickFields fields store = some
        (fields.map (fun x => if Field.inputB x then
            { x with value := (Store.get store x.name).getD x.value } else x))
    ∧ (∀ k, k ∉ (fields.filter Field.outputB).map Field.name →
        tickStoreGet fields store k = Store.get store k) := by
  have hmap : fields.map (fun x => if Field.inputB x then
        { x with value := (Store.get store x.name).getD Json.null } else x)
      = fields.map (fun x => if Field.inputB x then
        { x with value := (Store.get store x.name).getD x.value } else x) := by
    apply List.map_congr_left
    intro x hx
    by_cases hb : Field.inputB x
    · rw [if_pos hb, if_pos hb]
      cases hs : Store.get store x.name with
      | none =>
        have := hin x hx hb
        rw [hs] at this; cases this
      | some j => simp
    · rw [if_neg hb, if_neg hb]
  have h := processTick_ok fields store hdir hnodup hin
  refine ⟨?_, ?_, ?_⟩
  · unfold tickTrace
    rw [h]
  · unfold tickFields
    rw [h]
    dsimp only
    rw [hmap]
  · intro k hk
    unfold tickStoreGet
    rw [h]
    dsimp only
    have hnames : (((fields.filter Field.outputB).map (fun x => if Field.inputB x then
          { x with value := (Store.get store x.name).getD Json.null } else x)).map
            Field.name)
        = (fields.filter Field.outputB).map Field.name := by
      rw [List.map_map]
      apply List.map_congr_left
      intro x _
      by_cases hb : Field.inputB x <;> simp [Function.comp, hb]
    apply publishLoop_get_notmem
    rw [hnames]
    exact hk

/-- Counterexample to C3 as stated: a field with neither direction is not
"touched by neither phase" — its `None.value` access aborts the whole tick
with an `AttributeError` before any pull, suspend or push happens. -/
theorem C3_counterexample :
    processTick [⟨"HYDRO_INTERNAL", none, Json.null, false⟩] []
      = Except.error "AttributeError" := rfl

/-- Witness for C3: with one input and one output field, the tick trace is
pull-input, yield, push-output. -/
theorem C3_witness :
    tickTrace
      [⟨"a", some FieldType.DIGITAL_INPUT, Json.bool false, false⟩,
       ⟨"b", some FieldType.DIGITAL_OUTPUT, Json.bool true, false⟩]
      [("a", Json.bool true)]
      = some [TickEvent.pull "a", TickEvent.yield, TickEvent.push "b"] := by
  have h := (C3_tick_phases
    [⟨"a", some FieldType.DIGITAL_INPUT, Json.bool false, false⟩,
     ⟨"b", some FieldType.DIGITAL_OUTPUT, Json.bool true, false⟩]
    [("a", Json.bool true)] (by decide) (by decide) (by decide)).1
  rw [h]
  rfl

/-- Claim C4: once a `DisconnectorStateField` holds `Broken`, every write of
any state raises a `ValueError` to the caller (never silently), and the
stored value remains `Broken`. -/
theorem C4_broken_writes_fail (fd : DisconnectorStateField)
    (h : fd.value = some DisconnectorStateType.BROKEN) (v : DisconnectorStateType) :
    (fd.setValue v).raised = true ∧
    (fd.setValue v).field.value = some DisconnectorStateType.BROKEN := by
  simp [DisconnectorStateField.setValue, h]

/-- Witness for C4: a broken disconnector rejects a write of `OPEN` and stays
broken. -/
theorem C4_witness :
    ((DisconnectorStateField.mk "SW" none (some DisconnectorStateType.BROKEN) false
        none).setValue DisconnectorStateType.OPEN).raised = true ∧
    ((DisconnectorStateField.mk "SW" none (some DisconnectorStateType.BROKEN) false
        none).setValue DisconnectorStateType.OPEN).field.value
      = some DisconnectorStateType.BROKEN :=
  C4_broken_writes_fail _ rfl _

/-- Claim C5: from `Closed`, a write of `Open` succeeds (value becomes `Open`,
no exception) iff no observer is bound or the bound observer approves; a veto
leaves the field unchanged; every other transition from a non-`Broken` state
(`Closed` to anything but `Open`, and `Open` to anything, including `Broken`)
is unconditionally accepted. -/
theorem C5_closed_open_gated :
    (∀ fd : DisconnectorStateField, fd.value = some DisconnectorStateType.CLOSED →
      (((fd.setValue DisconnectorStateType.OPEN).field.value
            = some DisconnectorStateType.OPEN)
          ↔ (∀ obs, fd.observer = some obs → obs DisconnectorStateType.OPEN = true))
      ∧ (fd.setValue DisconnectorStateType.OPEN).raised = false
      ∧ (∀ obs, fd.observer = some obs → obs DisconnectorStateType.OPEN = false →
          (fd.setValue DisconnectorStateType.OPEN).field = fd)
      ∧ (∀ v, v ≠ DisconnectorStateType.OPEN →
          fd.setValue v = ⟨{ fd with value := some v }, false⟩))
    ∧ (∀ (fd : DisconnectorStateField) (v : DisconnectorStateType),
        fd.value = some DisconnectorStateType.OPEN →
        fd.setValue v = ⟨{ fd with value := some v }, false⟩) := by
  constructor
  · intro fd h
    refine ⟨?_, ?_, ?_, ?_⟩
    · cases hobs : fd.observer with
      | none => simp [DisconnectorStateField.setValue, h, hobs]
      | some obs =>
        cases hb : obs DisconnectorStateType.OPEN with
        | true => simp [DisconnectorStateField.setValue, h, hobs, hb]
        | false => simp [DisconnectorStateField.setValue, h, hobs, hb]
    · cases hobs : fd.observer with
      | none => simp [DisconnectorStateField.setValue, h, hobs]
      | some obs =>
        cases hb : obs DisconnectorStateType.OPEN with
        | true => simp [DisconnectorStateField.setValue, h, hobs, hb]
        | false => simp [DisconnectorStateField.setValue, h, hobs, hb]
    · intro obs hobs hb
      simp [DisconnectorStateField.setValue, h, hobs, hb]
    · intro v hv
      simp [DisconnectorStateField.setValue, h, hv]
  · intro fd v h
    simp [DisconnectorStateField.setValue, h]

/-- Witness for C5: with no observer bound, a closed disconnector opens. -/
theorem C5_witness :
    ((DisconnectorStateField.mk "SW" none (some DisconnectorStateType.CLOSED) false
        none).setValue DisconnectorStateType.OPEN).field.value
      = some DisconnectorStateType.OPEN :=
  ((C5_closed_open_gated.1 _ rfl).1).mpr (by intro obs hobs; cases hobs)

/-- Claim C6: on a breaker with its two member fields, writing any of the four
enum states decomposes it into the boolean pair of the members, and reading
derives the same enum back (round trip), with no transition restriction: the
write succeeds whatever the current pair is. -/
theorem C6_breaker_pair_roundtrip (b : BreakerStateField) (s0 s1 : Field)
    (h : b.fields = [s0, s1]) (s : BreakerStateType) :
    b.setValue s = Except.ok ⟨[{ s0 with value := Json.bool s.pair.1 },
                              { s1 with value := Json.bool s.pair.2 }]⟩
    ∧ BreakerStateField.getValue ⟨[{ s0 with value := Json.bool s.pair.1 },
                                   { s1 with value := Json.bool s.pair.2 }]⟩
        = Except.ok s := by
  constructor
  · simp [BreakerStateField.setValue, h]
  · cases s <;> rfl

/-- Witness for C6: writing `CLOSED` stores the pair `(false, true)` in the
two member fields (here overwriting a `Broken` pair — no restriction). -/
theorem C6_witness :
    BreakerStateField.setValue
        ⟨[⟨"closedInd", none, Json.bool true, false⟩,
          ⟨"openInd", none, Json.bool true, false⟩]⟩ BreakerStateType.CLOSED
      = Except.ok ⟨[⟨"closedInd", none, Json.bool false, false⟩,
                    ⟨"openInd", none, Json.bool true, false⟩]⟩ :=
  (C6_breaker_pair_roundtrip _ _ _ rfl BreakerStateType.CLOSED).1

/-- Claim C7 (corrected): for composition maps whose entries are all
non-negative (and with distinct keys), the stored composition has strictly
positive fractions, sums to 1 when the input total is positive, drops
zero-valued entries, and becomes empty when the total is not positive; the
spec's two examples hold through the `fluidDict` setter.  (For maps with a
negative entry the normalization invariant fails, see the counterexample.) -/
theorem C7_normalize_nonneg_inputs (d : FluidComp)
    (hpos : ∀ p ∈ d, 0 ≤ p.2) (hkeys : (d.map Prod.fst).Nodup) :
    (∀ p ∈ FluidField.normalize d, 0 < p.2)
    ∧ (0 < (d.map Prod.snd).sum → ((FluidField.normalize d).map Prod.snd).sum = 1)
    ∧ ((d.map Prod.snd).sum ≤ 0 → FluidField.normalize d = [])
    ∧ (∀ p ∈ d, p.2 = 0 → p.1 ∉ (FluidField.normalize d).map Prod.fst)
    ∧ (∀ f : FluidField,
        (f.setFluidDict (some [("A", 2), ("B", 2), ("C", 0)])).fluidDict
          = some [("A", 1/2), ("B", 1/2)])
    ∧ (∀ f : FluidField,
        (f.setFluidDict (some [("A", 0), ("B", 0)])).fluidDict = some []) := by
  refine ⟨?_, ?_, ?_, ?_, ?_, ?_⟩
  · intro p hp
    unfold FluidField.normalize at hp
    by_cases ht : 0 < (d.map Prod.snd).sum
    · rw [if_pos ht] at hp
      obtain ⟨q, hq, rfl⟩ := List.mem_map.mp hp
      have hq' := List.mem_filter.mp hq
      have hq0 : q.2 ≠ 0 := by simpa using hq'.2
      have : 0 < q.2 := lt_of_le_of_ne (hpos q hq'.1) (Ne.symm hq0)
      exact div_pos this ht
    · rw [if_neg ht] at hp
      cases hp
  · intro ht
    unfold FluidField.normalize
    rw [if_pos ht, sum_map_div, sum_filter_ne_zero, div_self (ne_of_gt ht)]
  · intro ht
    unfold FluidField.normalize
    rw [if_neg (not_lt.mpr ht)]
  · intro p hp hp0 hmem
    unfold FluidField.normalize at hmem
    by_cases ht : 0 < (d.map Prod.snd).sum
    · rw [if_pos ht] at hmem
      rw [List.map_map] at hmem
      obtain ⟨q, hq, hqe⟩ := List.mem_map.mp hmem
      have hq' := List.mem_filter.mp hq
      have hq0 : q.2 ≠ 0 := by simpa using hq'.2
      have hfst : q.1 = p.1 := hqe
      have := List.inj_on_of_nodup_map hkeys hq'.1 hp hfst
      rw [this] at hq0
      exact hq0 hp0
    · rw [if_neg ht] at hmem
      cases hmem
  · intro f
    simp [FluidField.setFluidDict]
    norm_num [FluidField.normalize]
  · intro f
    simp [FluidField.setFluidDict]
    norm_num [FluidField.normalize]

/-- Witness for C7: the normalized `A:2, B:2, C:0` composition sums to 1. -/
theorem C7_witness :
    ((FluidField.normalize [("A", (2:ℚ)), ("B", 2), ("C", 0)]).map Prod.snd).sum = 1 :=
  (C7_normalize_nonneg_inputs [("A", (2:ℚ)), ("B", 2), ("C", 0)]
      (by norm_num) (by simp)).2.1 (by norm_num)

/-- Counterexample to C7 as stated: the input `A:2, B:-1` has total 1, so it
is stored unchanged and the stored fraction of `B` is negative — the claimed
invariant "all stored fractions are non-negative" fails. -/
theorem C7_counterexample :
    FluidField.normalize [("A", (2:ℚ)), ("B", -1)] = [("A", 2), ("B", -1)]
    ∧ ((-1 : ℚ) < 0) := by
  constructor
  · norm_num [FluidField.normalize]
  · norm_num

/-- Claim C8 (corrected): the startup forced push serializes and writes every
configured field to the store — provided every field has a direction; the
registry names must also be distinct for the snapshot to be complete.  (A
field with no direction is not legal: it makes the forced push raise, see the
counterexample.) -/
theorem C8_initial_push_needs_direction (confs : List VarConf) (store : Store)
    (hdir : ∀ c ∈ confs, c.ioType.isSome)
    (hnodup : (confs.map VarConf.name).Nodup) :
    isError (initAllFields confs store) = false
    ∧ ∀ c ∈ confs, storeGetAfterInit confs store c.name = some c.value := by
  have hdirf : ∀ f ∈ confs.map (fun c => Field.mk c.name c.ioType c.value c.hide),
      f.ioType.isSome := by
    intro f hf
    obtain ⟨c, hc, rfl⟩ := List.mem_map.mp hf
    exact hdir c hc
  have hsel : selectFields (Field.outputTest true)
        (confs.map (fun c => Field.mk c.name c.ioType c.value c.hide))
      = Except.ok (confs.map (fun c => Field.mk c.name c.ioType c.value c.hide)) := by
    rw [selectFields_ok (fun _ => true) _ _ (fun f hf => outputTest_true_eq f (hdirf f hf))]
    rw [List.filter_true]
  have hinit : initAllFields confs store
      = Except.ok (confs.map (fun c => Field.mk c.name c.ioType c.value c.hide),
          publishLoop (confs.map (fun c => Field.mk c.name c.ioType c.value c.hide))
            store) := by
    unfold initAllFields publishFields
    rw [hsel]
  constructor
  · rw [hinit]
    rfl
  · intro c hc
    unfold storeGetAfterInit
    rw [hinit]
    dsimp only
    have hnames : (confs.map (fun c => Field.mk c.name c.ioType c.value c.hide)).map
        Field.name = confs.map VarConf.name := by
      rw [List.map_map]; rfl
    exact publishLoop_get_mem _ (by rw [hnames]; exact hnodup)
      (Field.mk c.name c.ioType c.value c.hide) (List.mem_map.mpr ⟨c, hc, rfl⟩) store

/-- Witness for C8: the forced push writes even an Input-direction field's
initial value to the store. -/
theorem C8_witness :
    storeGetAfterInit
      [⟨"HYDRO_LT_EAU_BARRAGE", some FieldType.ANALOG_INPUT, Json.bool true, false⟩]
      [] "HYDRO_LT_EAU_BARRAGE" = some (Json.bool true) :=
  (C8_initial_push_needs_direction
      [⟨"HYDRO_LT_EAU_BARRAGE", some FieldType.ANALOG_INPUT, Json.bool true, false⟩]
      [] (by decide) (by decide)).2
    ⟨"HYDRO_LT_EAU_BARRAGE", some FieldType.ANALOG_INPUT, Json.bool true, false⟩
    (by decide)

/-- Counterexample to C8 as stated: a configured field with no direction
makes the startup forced push raise an `AttributeError` instead of completing
without error. -/
theorem C8_counterexample :
    initAllFields [⟨"HYDRO_INTERNAL", none, Json.bool true, false⟩] []
      = Except.error "AttributeError" := rfl

/-- Claim C9 (corrected): `FieldCollection` construction raises when any
member is not an actual `Field` instance and stores exactly the members
otherwise; but membership is NOT immutable — the public `fields` property
setter replaces the member list. -/
theorem C9_members_checked_but_mutable :
    (∀ objs : List PyObj, (∃ o ∈ objs, o.isField = false) →
      isError (FieldCollection.construct objs) = true)
    ∧ (∀ fs : List Field, FieldCollection.construct (fs.map PyObj.field) = Except.ok ⟨fs⟩)
    ∧ ((FieldCollection.setFields ⟨[]⟩ [⟨"m", none, Json.null, false⟩]).fields ≠ []) := by
  refine ⟨?_, ?_, by decide⟩
  · intro objs hex
    obtain ⟨e, he⟩ := collectMembers_err objs hex
    simp [FieldCollection.construct, he, isError]
  · intro fs
    simp [FieldCollection.construct, collectMembers_map_field]

/-- Witness for C9: constructing a collection from one non-`Field` object
raises. -/
theorem C9_witness : isError (FieldCollection.construct [PyObj.other none]) = true :=
  C9_members_checked_but_mutable.1 [PyObj.other none] (by decide)

/-- Counterexample to C9 as stated: the public `fields` setter changes the
membership of an already-constructed collection, so membership is not
immutable. -/
theorem C9_counterexample :
    (FieldCollection.setFields ⟨[⟨"a", none, Json.null, false⟩]⟩
      [⟨"a", none, Json.null, false⟩, ⟨"b", none, Json.null, false⟩]).fields
    ≠ [⟨"a", none, Json.null, false⟩] := by decide

/-- Claim C10: the `DisconnectorStateField` constructor always raises, for
every name, io type, hide flag and valid initial state: the initial
`self.value = value` goes through the overriding `__setattr__`, which reads
the current value while no `value` attribute exists yet. -/
theorem C10_construct_always_raises (name : String) (ioType : Option FieldType)
    (value : DisconnectorStateType) (hide : Bool) :
    DisconnectorStateField.construct name ioType value hide
      = Except.error "AttributeError" := rfl

/-- Witness for C10 at one concrete constructor call. -/
theorem C10_witness :
    DisconnectorStateField.construct "HYDRO_ST_SECT" (some FieldType.DIGITAL_OUTPUT)
      DisconnectorStateType.CLOSED false = Except.error "AttributeError" :=
  C10_construct_always_raises "HYDRO_ST_SECT" (some FieldType.DIGITAL_OUTPUT)
    DisconnectorStateType.CLOSED false

end Simulator
